import Mathlib

/-!
Verification development for the dsr-utils repository.

This file shallowly embeds the parts of `dsr_utils` that carry the
interesting behaviour:

* `src/dsr_utils/tables.py`: `Table.get_row_height` and the pagination
  loop of `render_table` (the `while remaining_row_count > 0` loop),
  including the `_calc_metrics` sizing pass;
* `src/dsr_utils/formatting.py`: `NumericScale` / `DataScale` scaling,
  `FloatFormat.get_format`, `DateTimeFormat._generate_fmt` together with
  the property setters, and `FormatConfig.format_value`.

Real heights are modelled as exact rationals (`ℚ`); the matplotlib text
measurements are oracle parameters.  The pagination loop of the source
may genuinely diverge, so it is embedded with explicit fuel: a run of
the Python loop that terminates corresponds to `paginateLoop ... fuel
... = some pages` for some fuel.
-/

namespace DsrUtils

/-- A rendered table page; mirrors `TablePage` of tables.py (lines
559-591), keeping the two row-position fields the claims are about. -/
structure TablePage where
  start_row_iloc : Int
  end_row_iloc : Int
  deriving DecidableEq

/-- The slice of `Table` state (tables.py, lines 349-556) that feeds
`get_row_height` and the pagination loop.  `row_height_exceptions` is
the dict of per-row height overrides, `idx` is `table.data.index`
(mapping an iloc to its label), and `edge_pad_top` / `edge_pad_bottom`
are entries 2 and 3 of `_table_edge_padding_fraction`. -/
structure TableH where
  fixed_row_height : Bool
  detail_row_height_fraction : ℚ
  header_row_height_fraction : ℚ
  row_height_exceptions : Int → Option ℚ
  edge_pad_top : ℚ
  edge_pad_bottom : ℚ
  include_headers : Bool
  max_table_height : ℚ
  idx : Nat → Int

/-- `Table.get_row_height` (tables.py, lines 527-556): header rows are
requested with index `-1`; first/last rendered rows absorb the table's
top/bottom edge padding. -/
def get_row_height (t : TableH) (index : Int) (is_first_row is_last_row : Bool) : ℚ :=
  let row_height :=
    if t.fixed_row_height then
      t.detail_row_height_fraction
    else
      if index = -1 then
        t.header_row_height_fraction
      else
        (t.row_height_exceptions index).getD t.detail_row_height_fraction
  let row_height := if is_first_row then row_height + t.edge_pad_top else row_height
  if is_last_row then row_height + t.edge_pad_bottom else row_height

/-- The inner `while` loop of `render_table` (tables.py, lines
1546-1567): starting from `remaining` rows to place and the pending
height `h` of row `row_iloc`, it consumes rows while the pending row
strictly fits in `avail`, and returns the updated
`(remaining_row_count, row_iloc)`. -/
def innerLoop (t : TableH) : Nat → Nat → ℚ → ℚ → Nat × Nat
  | 0, row_iloc, _, _ => (0, row_iloc)
  | remaining + 1, row_iloc, avail, h =>
    if 0 < avail - h then
      let row' := row_iloc + 1
      let avail' := avail - h
      if remaining = 0 then
        (0, row')
      else
        let h' := get_row_height t (t.idx row') false (remaining == 1)
        if avail' < h' then
          (remaining, row')
        else
          innerLoop t remaining row' avail' h'
    else
      (remaining + 1, row_iloc)

/-- Result of one iteration of the outer pagination loop. -/
structure OuterResult where
  remaining : Nat
  row_iloc : Nat
  page : TablePage

/-- One iteration of the outer `while remaining_row_count > 0` loop of
`render_table` (tables.py, lines 1523-1577), for `remaining > 0`:
reserve the header height (when `include_headers`), then run the inner
loop and emit the page `(start_row_iloc, row_iloc)`. -/
def outerStep (t : TableH) (remaining row_iloc : Nat) (max_table_height : ℚ) : OuterResult :=
  let is_first_row := true
  let is_last_row := remaining == 1
  let max_available_height := max_table_height
  let height_for_next_row := get_row_height t (-1) is_first_row is_last_row
  let is_first_row := !t.include_headers
  let height_for_next_row := if t.include_headers then height_for_next_row else 0
  let max_available_height := max_available_height - height_for_next_row
  let height_for_next_row := get_row_height t (t.idx row_iloc) is_first_row is_last_row
  let start_row_iloc := row_iloc
  let res := innerLoop t remaining row_iloc max_available_height height_for_next_row
  ⟨res.1, res.2, ⟨(start_row_iloc : Int), (res.2 : Int)⟩⟩

/-- The outer pagination loop of `render_table` (tables.py, lines
1523-1579), with explicit fuel: after the first page the budget becomes
`continuation_page_height` (line 1578).  `none` means the fuel ran out
before `remaining_row_count` reached `0`. -/
def paginateLoop (t : TableH) (continuation_page_height : ℚ) :
    Nat → Nat → Nat → ℚ → Option (List TablePage)
  | _, 0, _, _ => some []
  | 0, _ + 1, _, _ => none
  | fuel + 1, remaining + 1, row_iloc, max_table_height =>
    let step := outerStep t (remaining + 1) row_iloc max_table_height
    match paginateLoop t continuation_page_height fuel step.remaining step.row_iloc
        continuation_page_height with
    | none => none
    | some rest => some (step.page :: rest)

/-- `render_table` restricted to the page list it computes (tables.py,
lines 1361-1592): an empty dataframe short-circuits to the single
`(-1, -1)` placeholder page (lines 1395-1415), otherwise the pagination
loop runs from row `0` with the first-page budget `max_table_height`. -/
def render_table (t : TableH) (num_rows : Nat) (continuation_page_height : ℚ)
    (fuel : Nat) : Option (List TablePage) :=
  if num_rows = 0 then
    some [⟨-1, -1⟩]
  else
    paginateLoop t continuation_page_height fuel num_rows 0 t.max_table_height

/-- Height reserved for the header on a page starting at row `s` out of
`n` total rows: `get_row_height(-1, True, remaining == 1)` when headers
are included, else `0` (tables.py, lines 1527-1537). -/
def headerAllowance (t : TableH) (n s : Nat) : ℚ :=
  if t.include_headers then get_row_height t (-1) true ((n - s) == 1) else 0

/-- Height of the first candidate data row of a page starting at row
`s`: its `is_first_row` flag is true exactly when no header was drawn
(tables.py, lines 1532-1543). -/
def firstRowHeight (t : TableH) (n s : Nat) : ℚ :=
  get_row_height t (t.idx s) (!t.include_headers) ((n - s) == 1)

/-- Sum of `get_row_height` over the rows `[s, e)` placed on a page,
with the first/last flags the pagination loop uses for each row. -/
def pageRowsHeight (t : TableH) (n s e : Nat) : ℚ :=
  ∑ r ∈ Finset.Ico s e,
    get_row_height t (t.idx r) (r == s && !t.include_headers) ((n - r) == 1)

/-- Height the inner loop recomputes for a non-first row `r` of a page
(`is_first_row` is `False` there, `is_last_row` holds for the final
dataframe row). -/
def loopRowHeight (t : TableH) (n r : Nat) : ℚ :=
  get_row_height t (t.idx r) false ((n - r) == 1)

lemma innerLoop_stay (t : TableH) (r row_iloc : Nat) (avail h : ℚ)
    (hc : ¬0 < avail - h) :
    innerLoop t (r + 1) row_iloc avail h = (r + 1, row_iloc) := by
  rw [innerLoop, if_neg hc]

lemma innerLoop_last (t : TableH) (row_iloc : Nat) (avail h : ℚ)
    (hc : 0 < avail - h) :
    innerLoop t 1 row_iloc avail h = (0, row_iloc + 1) := by
  rw [innerLoop, if_pos hc]
  simp

lemma innerLoop_full (t : TableH) (r row_iloc : Nat) (avail h : ℚ)
    (hc : 0 < avail - h) (hr : r ≠ 0)
    (hbreak : avail - h < get_row_height t (t.idx (row_iloc + 1)) false (r == 1)) :
    innerLoop t (r + 1) row_iloc avail h = (r, row_iloc + 1) := by
  rw [innerLoop, if_pos hc]
  simp only [if_neg hr, if_pos hbreak]

lemma innerLoop_continue (t : TableH) (r row_iloc : Nat) (avail h : ℚ)
    (hc : 0 < avail - h) (hr : r ≠ 0)
    (hbreak : ¬avail - h < get_row_height t (t.idx (row_iloc + 1)) false (r == 1)) :
    innerLoop t (r + 1) row_iloc avail h
      = innerLoop t r (row_iloc + 1) (avail - h)
          (get_row_height t (t.idx (row_iloc + 1)) false (r == 1)) := by
  rw [innerLoop, if_pos hc]
  simp only [if_neg hr, if_neg hbreak]

lemma innerLoop_bounds (t : TableH) :
    ∀ (remaining row_iloc : Nat) (avail h : ℚ),
      (innerLoop t remaining row_iloc avail h).1 ≤ remaining ∧
      (innerLoop t remaining row_iloc avail h).2 + (innerLoop t remaining row_iloc avail h).1
        = row_iloc + remaining := by
  intro remaining
  induction remaining with
  | zero => intro row avail h; simp [innerLoop]
  | succ r ih =>
    intro row avail h
    by_cases h1 : 0 < avail - h
    · by_cases h2 : r = 0
      · subst h2; rw [innerLoop_last t row avail h h1]; simp
      · by_cases h3 : avail - h < get_row_height t (t.idx (row + 1)) false (r == 1)
        · rw [innerLoop_full t r row avail h h1 h2 h3]; omega
        · rw [innerLoop_continue t r row avail h h1 h2 h3]
          have := ih (row + 1) (avail - h) (get_row_height t (t.idx (row + 1)) false (r == 1))
          omega
    · rw [innerLoop_stay t r row avail h h1]; omega

lemma innerLoop_le (t : TableH) (remaining row_iloc : Nat) (avail h : ℚ) :
    row_iloc ≤ (innerLoop t remaining row_iloc avail h).2 := by
  have := innerLoop_bounds t remaining row_iloc avail h
  omega

lemma innerLoop_progress_iff (t : TableH) (r row_iloc : Nat) (avail h : ℚ) :
    row_iloc < (innerLoop t (r + 1) row_iloc avail h).2 ↔ 0 < avail - h := by
  constructor
  · intro hlt
    by_contra hc
    rw [innerLoop_stay t r row_iloc avail h hc] at hlt
    omega
  · intro h1
    by_cases h2 : r = 0
    · subst h2; rw [innerLoop_last t row_iloc avail h h1]; omega
    · by_cases h3 : avail - h < get_row_height t (t.idx (row_iloc + 1)) false (r == 1)
      · rw [innerLoop_full t r row_iloc avail h h1 h2 h3]; omega
      · rw [innerLoop_continue t r row_iloc avail h h1 h2 h3]
        have := innerLoop_le t r (row_iloc + 1) (avail - h)
          (get_row_height t (t.idx (row_iloc + 1)) false (r == 1))
        omega

lemma innerLoop_sum (t : TableH) (n : Nat) :
    ∀ (remaining row_iloc : Nat) (avail h : ℚ),
      remaining + row_iloc = n →
      row_iloc < (innerLoop t remaining row_iloc avail h).2 →
      h + ∑ r ∈ Finset.Ico (row_iloc + 1) (innerLoop t remaining row_iloc avail h).2,
          loopRowHeight t n r < avail := by
  intro remaining
  induction remaining with
  | zero => intro row avail h _ hlt; simp [innerLoop] at hlt
  | succ r ih =>
    intro row avail h hinv hlt
    have h1 : 0 < avail - h := (innerLoop_progress_iff t r row avail h).1 hlt
    by_cases h2 : r = 0
    · subst h2
      rw [innerLoop_last t row avail h h1]
      simp only [Finset.Ico_self, Finset.sum_empty]
      linarith
    · by_cases h3 : avail - h < get_row_height t (t.idx (row + 1)) false (r == 1)
      · rw [innerLoop_full t r row avail h h1 h2 h3]
        simp only [Finset.Ico_self, Finset.sum_empty]
        linarith
      · rw [innerLoop_continue t r row avail h h1 h2 h3] at hlt ⊢
        set h' := get_row_height t (t.idx (row + 1)) false (r == 1) with hh'
        have hinv' : r + (row + 1) = n := by omega
        have hterm : loopRowHeight t n (row + 1) = h' := by
          rw [loopRowHeight, hh']
          have hr1 : r = n - (row + 1) := by omega
          rw [← hr1]
        by_cases h4 : row + 1 < (innerLoop t r (row + 1) (avail - h) h').2
        · have hIH := ih (row + 1) (avail - h) h' hinv' h4
          have hsplit : ∑ x ∈ Finset.Ico (row + 1) (innerLoop t r (row + 1) (avail - h) h').2,
              loopRowHeight t n x
              = loopRowHeight t n (row + 1)
                + ∑ x ∈ Finset.Ico (row + 1 + 1) (innerLoop t r (row + 1) (avail - h) h').2,
                  loopRowHeight t n x :=
            Finset.sum_eq_sum_Ico_succ_bot h4 _
          rw [hsplit, hterm]
          linarith
        · have hge := innerLoop_le t r (row + 1) (avail - h) h'
          have heq : (innerLoop t r (row + 1) (avail - h) h').2 = row + 1 := by omega
          rw [heq]
          simp only [Finset.Ico_self, Finset.sum_empty]
          linarith

lemma outerStep_spec (t : TableH) (n : Nat) (r row_iloc : Nat) (budget : ℚ)
    (hinv : r + 1 + row_iloc = n) :
    (outerStep t (r + 1) row_iloc budget).remaining
        + (outerStep t (r + 1) row_iloc budget).row_iloc = n ∧
    row_iloc ≤ (outerStep t (r + 1) row_iloc budget).row_iloc ∧
    (outerStep t (r + 1) row_iloc budget).page
        = ⟨(row_iloc : Int), ((outerStep t (r + 1) row_iloc budget).row_iloc : Int)⟩ ∧
    (row_iloc < (outerStep t (r + 1) row_iloc budget).row_iloc ↔
        firstRowHeight t n row_iloc < budget - headerAllowance t n row_iloc) ∧
    (row_iloc < (outerStep t (r + 1) row_iloc budget).row_iloc →
        headerAllowance t n row_iloc
          + pageRowsHeight t n row_iloc (outerStep t (r + 1) row_iloc budget).row_iloc
          ≤ budget) := by
  have hdr : headerAllowance t n row_iloc
      = if t.include_headers then get_row_height t (-1) true ((r + 1) == 1) else 0 := by
    rw [headerAllowance, show n - row_iloc = r + 1 by omega]
  have hfr : firstRowHeight t n row_iloc
      = get_row_height t (t.idx row_iloc) (!t.include_headers) ((r + 1) == 1) := by
    rw [firstRowHeight, show n - row_iloc = r + 1 by omega]
  have estep : outerStep t (r + 1) row_iloc budget
      = ⟨(innerLoop t (r + 1) row_iloc (budget - headerAllowance t n row_iloc)
            (firstRowHeight t n row_iloc)).1,
         (innerLoop t (r + 1) row_iloc (budget - headerAllowance t n row_iloc)
            (firstRowHeight t n row_iloc)).2,
         ⟨(row_iloc : Int),
          ((innerLoop t (r + 1) row_iloc (budget - headerAllowance t n row_iloc)
              (firstRowHeight t n row_iloc)).2 : Int)⟩⟩ := by
    rw [hdr, hfr]; rfl
  rw [estep]
  dsimp only
  have hb := innerLoop_bounds t (r + 1) row_iloc (budget - headerAllowance t n row_iloc)
    (firstRowHeight t n row_iloc)
  refine ⟨by omega, by omega, rfl, ?_, ?_⟩
  · rw [innerLoop_progress_iff]
    constructor
    · intro hp; linarith
    · intro hp; linarith
  · intro hlt
    have hsum := innerLoop_sum t n (r + 1) row_iloc
      (budget - headerAllowance t n row_iloc) (firstRowHeight t n row_iloc)
      (by omega) hlt
    have hpr : pageRowsHeight t n row_iloc
        (innerLoop t (r + 1) row_iloc (budget - headerAllowance t n row_iloc)
          (firstRowHeight t n row_iloc)).2
        = firstRowHeight t n row_iloc
          + ∑ x ∈ Finset.Ico (row_iloc + 1)
              (innerLoop t (r + 1) row_iloc (budget - headerAllowance t n row_iloc)
                (firstRowHeight t n row_iloc)).2,
              loopRowHeight t n x := by
      rw [pageRowsHeight, Finset.sum_eq_sum_Ico_succ_bot hlt]
      have hfirst : get_row_height t (t.idx row_iloc)
          (row_iloc == row_iloc && !t.include_headers) ((n - row_iloc) == 1)
          = firstRowHeight t n row_iloc := by
        rw [firstRowHeight, beq_self_eq_true, Bool.true_and]
      rw [hfirst]
      congr 1
      apply Finset.sum_congr rfl
      intro x hx
      rw [Finset.mem_Ico] at hx
      rw [loopRowHeight, show (x == row_iloc) = false by simp; omega,
        Bool.false_and]
    rw [hpr]
    linarith

/-- The invariant the pagination loop maintains for the page list it
returns when started at row `row_iloc` with the given first-page
`budget` (later pages use the continuation budget `cont`):  each page
starts where the previous one ended, a page is non-empty exactly when
its first candidate row strictly fits under the page budget after the
header allowance, and a non-empty page's header plus placed rows stay
within the budget; the final page ends at row `n`. -/
def PagesSpec (t : TableH) (n : Nat) (cont : ℚ) : ℚ → Nat → List TablePage → Prop
  | _, row_iloc, [] => row_iloc = n
  | budget, row_iloc, p :: rest =>
    ∃ e : Nat, p = ⟨(row_iloc : Int), (e : Int)⟩ ∧ row_iloc ≤ e ∧ e ≤ n ∧
      (row_iloc < e ↔ firstRowHeight t n row_iloc < budget - headerAllowance t n row_iloc) ∧
      (row_iloc < e → headerAllowance t n row_iloc + pageRowsHeight t n row_iloc e ≤ budget) ∧
      PagesSpec t n cont cont e rest

lemma paginateLoop_spec (t : TableH) (n : Nat) (cont : ℚ) :
    ∀ (fuel remaining row_iloc : Nat) (budget : ℚ) (pages : List TablePage),
      remaining + row_iloc = n →
      paginateLoop t cont fuel remaining row_iloc budget = some pages →
      PagesSpec t n cont budget row_iloc pages := by
  intro fuel
  induction fuel with
  | zero =>
    intro remaining row_iloc budget pages hinv hsome
    cases remaining with
    | zero =>
      rw [paginateLoop] at hsome
      cases hsome
      rw [PagesSpec]
      omega
    | succ r => exact absurd hsome (by rw [paginateLoop]; simp)
  | succ f ih =>
    intro remaining row_iloc budget pages hinv hsome
    cases remaining with
    | zero =>
      rw [paginateLoop] at hsome
      cases hsome
      rw [PagesSpec]
      omega
    | succ r =>
      simp only [paginateLoop] at hsome
      cases hmatch : paginateLoop t cont f (outerStep t (r + 1) row_iloc budget).remaining
          (outerStep t (r + 1) row_iloc budget).row_iloc cont with
      | none => rw [hmatch] at hsome; cases hsome
      | some rest =>
        rw [hmatch] at hsome
        have hpages : pages = (outerStep t (r + 1) row_iloc budget).page :: rest :=
          (Option.some.inj hsome).symm
        subst hpages
        obtain ⟨hinv', hle, hpage, hiff, hbudget⟩ := outerStep_spec t n r row_iloc budget hinv
        rw [PagesSpec]
        exact ⟨(outerStep t (r + 1) row_iloc budget).row_iloc, hpage, hle, by omega,
          hiff, hbudget, ih _ _ cont rest (by omega) hmatch⟩

lemma pagesSpec_getD (t : TableH) (n : Nat) (cont : ℚ) :
    ∀ (pages : List TablePage) (budget : ℚ) (row_iloc : Nat),
      PagesSpec t n cont budget row_iloc pages →
      ∀ i, i < pages.length →
        ∃ s e : Nat, pages.getD i ⟨0, 0⟩ = ⟨(s : Int), (e : Int)⟩ ∧ s ≤ e ∧ e ≤ n ∧
          (s < e ↔
            firstRowHeight t n s < (if i = 0 then budget else cont) - headerAllowance t n s) ∧
          (s < e →
            headerAllowance t n s + pageRowsHeight t n s e ≤ (if i = 0 then budget else cont)) := by
  intro pages
  induction pages with
  | nil => intro budget row_iloc _ i hi; simp at hi
  | cons p rest ih =>
    intro budget row_iloc hspec i hi
    rw [PagesSpec] at hspec
    obtain ⟨e, hp, hle, hen, hiff, hbud, hrest⟩ := hspec
    cases i with
    | zero =>
      refine ⟨row_iloc, e, ?_, hle, hen, ?_, ?_⟩
      · rw [List.getD_cons_zero, hp]
      · simpa using hiff
      · simpa using hbud
    | succ j =>
      have hj : j < rest.length := by simpa using hi
      obtain ⟨s', e', hgd, hle', hen', hiff', hbud'⟩ := ih cont e hrest j hj
      refine ⟨s', e', ?_, hle', hen', ?_, ?_⟩
      · rw [List.getD_cons_succ, hgd]
      · have hc : (if j = 0 then cont else cont) = cont := by split <;> rfl
        rw [hc] at hiff'
        simpa using hiff'
      · have hc : (if j = 0 then cont else cont) = cont := by split <;> rfl
        rw [hc] at hbud'
        simpa using hbud'

lemma pagesSpec_start (t : TableH) (n : Nat) (cont budget : ℚ) (row_iloc : Nat)
    (p : TablePage) (rest : List TablePage)
    (hspec : PagesSpec t n cont budget row_iloc (p :: rest)) :
    p.start_row_iloc = (row_iloc : Int) := by
  rw [PagesSpec] at hspec
  obtain ⟨e, hp, _⟩ := hspec
  rw [hp]

lemma pagesSpec_chain (t : TableH) (n : Nat) (cont : ℚ) :
    ∀ (pages : List TablePage) (budget : ℚ) (row_iloc : Nat),
      PagesSpec t n cont budget row_iloc pages →
      ∀ i, i + 1 < pages.length →
        (pages.getD i ⟨0, 0⟩).end_row_iloc = (pages.getD (i + 1) ⟨0, 0⟩).start_row_iloc := by
  intro pages
  induction pages with
  | nil => intro budget row_iloc _ i hi; simp at hi
  | cons p rest ih =>
    intro budget row_iloc hspec i hi
    rw [PagesSpec] at hspec
    obtain ⟨e, hp, hle, hen, hiff, hbud, hrest⟩ := hspec
    cases i with
    | zero =>
      cases rest with
      | nil => simp at hi
      | cons q rest' =>
        rw [List.getD_cons_zero, List.getD_cons_succ, List.getD_cons_zero, hp,
          pagesSpec_start t n cont cont e q rest' hrest]
    | succ j =>
      have hj : j + 1 < rest.length := by simpa using hi
      rw [List.getD_cons_succ, List.getD_cons_succ]
      exact ih cont e hrest j hj

lemma pagesSpec_last (t : TableH) (n : Nat) (cont : ℚ) :
    ∀ (pages : List TablePage) (budget : ℚ) (row_iloc : Nat),
      PagesSpec t n cont budget row_iloc pages →
      ∀ p, pages.getLast? = some p → p.end_row_iloc = (n : Int) := by
  intro pages
  induction pages with
  | nil => intro budget row_iloc _ p hp; cases hp
  | cons q rest ih =>
    intro budget row_iloc hspec p hp
    rw [PagesSpec] at hspec
    obtain ⟨e, hq, hle, hen, hiff, hbud, hrest⟩ := hspec
    cases rest with
    | nil =>
      rw [List.getLast?_singleton] at hp
      cases hp
      rw [PagesSpec] at hrest
      rw [hq, hrest]
    | cons q' rest' =>
      rw [List.getLast?_cons_cons] at hp
      exact ih cont e hrest p hp

lemma pagesSpec_mem (t : TableH) (n : Nat) (cont : ℚ) :
    ∀ (pages : List TablePage) (budget : ℚ) (row_iloc : Nat),
      PagesSpec t n cont budget row_iloc pages →
      ∀ p ∈ pages, p.start_row_iloc ≤ p.end_row_iloc := by
  intro pages
  induction pages with
  | nil => intro budget row_iloc _ p hp; cases hp
  | cons q rest ih =>
    intro budget row_iloc hspec p hp
    rw [PagesSpec] at hspec
    obtain ⟨e, hq, hle, hen, hiff, hbud, hrest⟩ := hspec
    rcases List.mem_cons.1 hp with hph | hpr
    · subst hph
      rw [hq]
      show (row_iloc : Int) ≤ (e : Int)
      exact_mod_cast hle
    · exact ih cont e hrest p hpr

/-- Concrete table in which every row fits comfortably: two rows of
height 1, no headers, page budgets 10. -/
def tFit : TableH where
  fixed_row_height := false
  detail_row_height_fraction := 1
  header_row_height_fraction := 1
  row_height_exceptions := fun _ => none
  edge_pad_top := 0
  edge_pad_bottom := 0
  include_headers := false
  max_table_height := 10
  idx := fun i => (i : Int)

/-- Concrete table with a single row of height 2 that exceeds both the
first-page budget (1) and the continuation-page budget (also 1 below). -/
def tOversize : TableH where
  fixed_row_height := false
  detail_row_height_fraction := 2
  header_row_height_fraction := 1
  row_height_exceptions := fun _ => none
  edge_pad_top := 0
  edge_pad_bottom := 0
  include_headers := false
  max_table_height := 1
  idx := fun i => (i : Int)

/-- Concrete table whose header (height 5) exceeds the first-page
budget (3) while its single data row (height 1) fits the continuation
page (budget 10 below). -/
def tTallHeader : TableH where
  fixed_row_height := false
  detail_row_height_fraction := 1
  header_row_height_fraction := 5
  row_height_exceptions := fun _ => none
  edge_pad_top := 0
  edge_pad_bottom := 0
  include_headers := true
  max_table_height := 3
  idx := fun i => (i : Int)

lemma tFit_run : render_table tFit 2 10 1 = some [⟨0, 2⟩] := by
  norm_num [render_table, paginateLoop, outerStep, innerLoop, get_row_height, tFit]

lemma tTallHeader_run : render_table tTallHeader 1 10 2 = some [⟨0, 0⟩, ⟨0, 1⟩] := by
  norm_num [render_table, paginateLoop, outerStep, innerLoop, get_row_height, tTallHeader]

/-- Claim C1: for a table built from a non-empty dataframe (`n ≠ 0`),
whenever the pagination loop of `render_table` terminates (it returns
`some pages`), the pages form an ordered partition of the row positions
`[0, n)`: the page list is non-empty, the first page's
`start_row_iloc` is `0`, each page's `end_row_iloc` equals the next
page's `start_row_iloc`, the last page's `end_row_iloc` equals the
number of rows, and each page covers the half-open interval
`[start_row_iloc, end_row_iloc)` (so every row is assigned to exactly
one page in iloc order). -/
theorem render_table_pages_partition (t : TableH) (n : Nat) (cont : ℚ) (fuel : Nat)
    (pages : List TablePage) (hn : n ≠ 0)
    (hrun : render_table t n cont fuel = some pages) :
    pages ≠ [] ∧
    (pages.getD 0 ⟨0, 0⟩).start_row_iloc = 0 ∧
    (∀ i, i + 1 < pages.length →
      (pages.getD i ⟨0, 0⟩).end_row_iloc = (pages.getD (i + 1) ⟨0, 0⟩).start_row_iloc) ∧
    (∀ p, pages.getLast? = some p → p.end_row_iloc = (n : Int)) ∧
    (∀ p ∈ pages, p.start_row_iloc ≤ p.end_row_iloc) := by
  rw [render_table, if_neg hn] at hrun
  have hspec := paginateLoop_spec t n cont fuel n 0 t.max_table_height pages (by omega) hrun
  have hne : pages ≠ [] := by
    intro hnil
    subst hnil
    rw [PagesSpec] at hspec
    omega
  refine ⟨hne, ?_, pagesSpec_chain t n cont pages _ _ hspec,
    pagesSpec_last t n cont pages _ _ hspec, pagesSpec_mem t n cont pages _ _ hspec⟩
  cases pages with
  | nil => exact absurd rfl hne
  | cons p rest =>
    rw [List.getD_cons_zero]
    have := pagesSpec_start t n cont t.max_table_height 0 p rest hspec
    simpa using this

/-- Witness for C1 at the concrete two-row table `tFit`. -/
theorem render_table_pages_partition_witness :
    ([(⟨0, 2⟩ : TablePage)] ≠ [] ∧
      (([(⟨0, 2⟩ : TablePage)]).getD 0 ⟨0, 0⟩).start_row_iloc = 0 ∧
      (∀ i, i + 1 < ([(⟨0, 2⟩ : TablePage)]).length →
        (([(⟨0, 2⟩ : TablePage)]).getD i ⟨0, 0⟩).end_row_iloc
          = (([(⟨0, 2⟩ : TablePage)]).getD (i + 1) ⟨0, 0⟩).start_row_iloc) ∧
      (∀ p, ([(⟨0, 2⟩ : TablePage)]).getLast? = some p → p.end_row_iloc = ((2 : Nat) : Int)) ∧
      (∀ p ∈ [(⟨0, 2⟩ : TablePage)], p.start_row_iloc ≤ p.end_row_iloc)) :=
  render_table_pages_partition tFit 2 10 1 [⟨0, 2⟩] (by decide) tFit_run

/-- Claim C9: `render_table` always returns at least one page; for an
empty dataframe it returns exactly one placeholder page with
`start_row_iloc = end_row_iloc = -1`, and any terminating run on a
non-empty dataframe returns a non-empty page list. -/
theorem render_table_always_pages (t : TableH) (cont : ℚ) (fuel : Nat) :
    render_table t 0 cont fuel = some [⟨-1, -1⟩] ∧
    ∀ (n : Nat) (pages : List TablePage),
      render_table t n cont fuel = some pages → pages ≠ [] := by
  constructor
  · rw [render_table, if_pos rfl]
  · intro n pages hrun
    by_cases hn : n = 0
    · subst hn
      rw [render_table, if_pos rfl] at hrun
      cases hrun
      simp
    · rw [render_table, if_neg hn] at hrun
      obtain ⟨r, rfl⟩ : ∃ r, n = r + 1 := ⟨n - 1, by omega⟩
      cases fuel with
      | zero => rw [paginateLoop] at hrun; cases hrun
      | succ f =>
        simp only [paginateLoop] at hrun
        cases hmatch : paginateLoop t cont f
            (outerStep t (r + 1) 0 t.max_table_height).remaining
            (outerStep t (r + 1) 0 t.max_table_height).row_iloc cont with
        | none => rw [hmatch] at hrun; cases hrun
        | some rest =>
          rw [hmatch] at hrun
          have hp : pages = (outerStep t (r + 1) 0 t.max_table_height).page :: rest :=
            (Option.some.inj hrun).symm
          subst hp
          simp

/-- Witness for C9 at the concrete tables `tFit` (empty and two-row
dataframes). -/
theorem render_table_always_pages_witness :
    render_table tFit 0 10 1 = some [⟨-1, -1⟩] ∧ ([(⟨0, 2⟩ : TablePage)] ≠ []) :=
  ⟨(render_table_always_pages tFit 10 1).1,
   (render_table_always_pages tFit 10 1).2 2 [⟨0, 2⟩] tFit_run⟩

/-- Counterexample to claim C10 as stated: on `tTallHeader` (one data
row, header taller than the first page) the loop terminates and
returns a first page with `start_row_iloc = end_row_iloc = 0`, i.e. a
page with no data row. -/
theorem pages_nonempty_cex :
    render_table tTallHeader 1 10 2 = some [⟨0, 0⟩, ⟨0, 1⟩] ∧
    ¬ ∀ p ∈ [(⟨0, 0⟩ : TablePage), ⟨0, 1⟩], p.start_row_iloc < p.end_row_iloc := by
  refine ⟨tTallHeader_run, fun hall => ?_⟩
  exact absurd (hall ⟨0, 0⟩ (by simp)) (by decide)

/-- Claim C10 (amended): every page produced by a terminating run
satisfies `start_row_iloc ≤ end_row_iloc`, and a page contains at
least one data row (`start < end`) exactly when the height of its
first candidate row is strictly below the page's budget minus the
header allowance; in particular a page can be empty when that row does
not fit. -/
theorem pages_nonempty_iff_fit (t : TableH) (n : Nat) (cont : ℚ) (fuel : Nat)
    (pages : List TablePage) (hn : n ≠ 0)
    (hrun : render_table t n cont fuel = some pages) :
    ∀ i, i < pages.length → ∃ s e : Nat,
      pages.getD i ⟨0, 0⟩ = ⟨(s : Int), (e : Int)⟩ ∧ s ≤ e ∧
      (s < e ↔ firstRowHeight t n s
        < (if i = 0 then t.max_table_height else cont) - headerAllowance t n s) := by
  rw [render_table, if_neg hn] at hrun
  have hspec := paginateLoop_spec t n cont fuel n 0 t.max_table_height pages (by omega) hrun
  intro i hi
  obtain ⟨s, e, h1, h2, _, h4, _⟩ := pagesSpec_getD t n cont pages _ _ hspec i hi
  exact ⟨s, e, h1, h2, h4⟩

/-- Witness for the amended C10 at the concrete table `tFit`, page 0. -/
theorem pages_nonempty_iff_fit_witness :
    ∃ s e : Nat,
      ([(⟨0, 2⟩ : TablePage)]).getD 0 ⟨0, 0⟩ = ⟨(s : Int), (e : Int)⟩ ∧ s ≤ e ∧
      (s < e ↔ firstRowHeight tFit 2 s
        < (if (0 : Nat) = 0 then tFit.max_table_height else 10) - headerAllowance tFit 2 s) :=
  pages_nonempty_iff_fit tFit 2 10 1 [⟨0, 2⟩] (by decide) tFit_run 0 (by decide)

/-- Counterexample to claim C3 as stated: on `tTallHeader` the loop
terminates, and its first page (budget `max_table_height = 3`) does
not respect the budget - the header allowance alone is 5. -/
theorem page_budget_cex :
    render_table tTallHeader 1 10 2 = some [⟨0, 0⟩, ⟨0, 1⟩] ∧
    ¬ (headerAllowance tTallHeader 1 0 + pageRowsHeight tTallHeader 1 0 0
        ≤ tTallHeader.max_table_height) := by
  refine ⟨tTallHeader_run, ?_⟩
  norm_num [headerAllowance, pageRowsHeight, get_row_height, tTallHeader]

/-- Claim C3 (amended): every page of a terminating run that contains
at least one data row respects its page-height budget: the header
allowance (when `include_headers` is set) plus the sum of
`get_row_height` over the rows placed on the page is at most
`max_table_height` for the first page and the continuation-page height
for every later page.  (A page with no data rows carries only its
header, which may exceed the budget, as `page_budget_cex` shows.) -/
theorem page_budget_of_rows (t : TableH) (n : Nat) (cont : ℚ) (fuel : Nat)
    (pages : List TablePage) (hn : n ≠ 0)
    (hrun : render_table t n cont fuel = some pages) :
    ∀ i, i < pages.length → ∃ s e : Nat,
      pages.getD i ⟨0, 0⟩ = ⟨(s : Int), (e : Int)⟩ ∧
      (s < e → headerAllowance t n s + pageRowsHeight t n s e
        ≤ (if i = 0 then t.max_table_height else cont)) := by
  rw [render_table, if_neg hn] at hrun
  have hspec := paginateLoop_spec t n cont fuel n 0 t.max_table_height pages (by omega) hrun
  intro i hi
  obtain ⟨s, e, h1, _, _, _, h5⟩ := pagesSpec_getD t n cont pages _ _ hspec i hi
  exact ⟨s, e, h1, h5⟩

/-- Witness for the amended C3 at the concrete table `tFit`, page 0. -/
theorem page_budget_of_rows_witness :
    ∃ s e : Nat,
      ([(⟨0, 2⟩ : TablePage)]).getD 0 ⟨0, 0⟩ = ⟨(s : Int), (e : Int)⟩ ∧
      (s < e → headerAllowance tFit 2 s + pageRowsHeight tFit 2 s e
        ≤ (if (0 : Nat) = 0 then tFit.max_table_height else 10)) :=
  page_budget_of_rows tFit 2 10 1 [⟨0, 2⟩] (by decide) tFit_run 0 (by decide)

lemma tOversize_step : outerStep tOversize 1 0 1 = ⟨1, 0, ⟨0, 0⟩⟩ := by
  norm_num [outerStep, innerLoop, get_row_height, tOversize]

lemma tOversize_loop : ∀ fuel, paginateLoop tOversize 1 fuel 1 0 1 = none := by
  intro fuel
  induction fuel with
  | zero => rw [paginateLoop]
  | succ f ih => norm_num [paginateLoop, tOversize_step, ih]

/-- Counterexample to claim C2 as stated: on `tOversize` (a single row
of height 2, both page budgets 1) the pagination loop never
terminates - for every amount of fuel the embedded loop fails to
complete, mirroring the Python loop appending empty pages forever. -/
theorem pagination_nontermination_cex :
    ¬ ∃ (fuel : Nat) (pages : List TablePage),
        render_table tOversize 1 1 fuel = some pages := by
  rintro ⟨fuel, pages, hsome⟩
  have hmax : tOversize.max_table_height = 1 := rfl
  rw [render_table, if_neg (by norm_num), hmax, tOversize_loop fuel] at hsome
  cases hsome

lemma paginateLoop_terminates (t : TableH) (n : Nat) (cont : ℚ)
    (hfit : ∀ s, s < n → firstRowHeight t n s < cont - headerAllowance t n s) :
    ∀ remaining fuel row_iloc, remaining ≤ fuel → remaining + row_iloc = n →
      ∃ pages, paginateLoop t cont fuel remaining row_iloc cont = some pages := by
  intro remaining
  induction remaining using Nat.strong_induction_on with
  | _ remaining ih =>
    intro fuel row_iloc hfuel hinv
    cases remaining with
    | zero => exact ⟨[], by rw [paginateLoop]⟩
    | succ r =>
      obtain ⟨f, rfl⟩ : ∃ f, fuel = f + 1 := ⟨fuel - 1, by omega⟩
      obtain ⟨hinv', hle, hpage, hiff, hbud⟩ := outerStep_spec t n r row_iloc cont hinv
      have hprog : row_iloc < (outerStep t (r + 1) row_iloc cont).row_iloc :=
        hiff.2 (hfit row_iloc (by omega))
      have hrem : (outerStep t (r + 1) row_iloc cont).remaining < r + 1 := by omega
      obtain ⟨rest, hrest⟩ := ih _ hrem f (outerStep t (r + 1) row_iloc cont).row_iloc
        (by omega) (by omega)
      refine ⟨(outerStep t (r + 1) row_iloc cont).page :: rest, ?_⟩
      simp only [paginateLoop]
      rw [hrest]

/-- Claim C2 (amended): the pagination loop terminates whenever every
row of the dataframe strictly fits a continuation page, i.e. its
height is below the continuation-page height minus the header
allowance; in general it need not terminate - when a single row's
height meets or exceeds both the first-page and the continuation-page
available heights the loop runs forever (`pagination_nontermination_cex`). -/
theorem pagination_terminates_of_rows_fit (t : TableH) (n : Nat) (cont : ℚ)
    (hfit : ∀ s, s < n → firstRowHeight t n s < cont - headerAllowance t n s) :
    ∃ (fuel : Nat) (pages : List TablePage), render_table t n cont fuel = some pages := by
  by_cases hn : n = 0
  · subst hn
    exact ⟨0, [⟨-1, -1⟩], by rw [render_table, if_pos rfl]⟩
  · obtain ⟨m, rfl⟩ : ∃ m, n = m + 1 := ⟨n - 1, by omega⟩
    obtain ⟨hinv', hle, hpage, hiff, hbud⟩ :=
      outerStep_spec t (m + 1) m 0 t.max_table_height (by omega)
    have hrem : (outerStep t (m + 1) 0 t.max_table_height).remaining ≤ m + 1 := by omega
    obtain ⟨rest, hrest⟩ := paginateLoop_terminates t (m + 1) cont hfit
      (outerStep t (m + 1) 0 t.max_table_height).remaining (m + 1)
      (outerStep t (m + 1) 0 t.max_table_height).row_iloc hrem (by omega)
    refine ⟨m + 1 + 1, (outerStep t (m + 1) 0 t.max_table_height).page :: rest, ?_⟩
    rw [render_table, if_neg (by omega)]
    simp only [paginateLoop]
    rw [hrest]

/-- Witness for the amended C2 at the concrete table `tFit`. -/
theorem pagination_terminates_of_rows_fit_witness :
    ∃ (fuel : Nat) (pages : List TablePage), render_table tFit 2 10 fuel = some pages :=
  pagination_terminates_of_rows_fit tFit 2 10 (by
    intro s hs
    interval_cases s <;>
      norm_num [firstRowHeight, headerAllowance, get_row_height, tFit])

/-- `NumericScale` (formatting.py, lines 93-191). -/
inductive NumericScale
  | NONE
  | AUTO
  | K
  | M
  | B
  deriving DecidableEq

/-- `NumericScale.get_size` (formatting.py, lines 102-121). -/
def NumericScale.get_size : NumericScale → ℚ
  | .NONE => 1
  | .AUTO => 1
  | .K => 1000
  | .M => 1000000
  | .B => 1000000000

/-- `NumericScale.get_scaled_value` (formatting.py, lines 123-153): the
AUTO branch tests the billions size first, then millions, thousands. -/
def NumericScale.get_scaled_value (s : NumericScale) (val : ℚ) : ℚ :=
  match s with
  | .NONE => val
  | .AUTO =>
    if val ≥ NumericScale.B.get_size then val / NumericScale.B.get_size
    else if val ≥ NumericScale.M.get_size then val / NumericScale.M.get_size
    else if val ≥ NumericScale.K.get_size then val / NumericScale.K.get_size
    else val
  | _ => if s.get_size = 1 then val else val / s.get_size

/-- `NumericScale.get_descriptor` (formatting.py, lines 155-191), with
`val` always supplied (every caller passes it). -/
def NumericScale.get_descriptor (s : NumericScale) (val : ℚ) : String :=
  match s with
  | .NONE => ""
  | .AUTO =>
    if val ≥ NumericScale.B.get_size then "B"
    else if val ≥ NumericScale.M.get_size then "M"
    else if val ≥ NumericScale.K.get_size then "K"
    else ""
  | .K => "K"
  | .M => "M"
  | .B => "B"

/-- `DataScale` (formatting.py, lines 194-312). -/
inductive DataScale
  | NONE
  | AUTO
  | B
  | KB
  | MB
  | GB
  | TB
  deriving DecidableEq

/-- `DataScale.get_size` (formatting.py, lines 205-226). -/
def DataScale.get_size : DataScale → ℚ
  | .NONE => 1
  | .B => 1
  | .AUTO => 1
  | .KB => 1024
  | .MB => 1048576
  | .GB => 1073741824
  | .TB => 1099511627776

/-- `DataScale.get_scaled_value` (formatting.py, lines 228-262): note
the AUTO branch tests the KB size FIRST (smallest first), unlike the
NumericScale analogue. -/
def DataScale.get_scaled_value (s : DataScale) (val : ℚ) : ℚ :=
  match s with
  | .NONE | .B => val
  | .AUTO =>
    if val ≥ DataScale.KB.get_size then val / DataScale.KB.get_size
    else if val ≥ DataScale.MB.get_size then val / DataScale.MB.get_size
    else if val ≥ DataScale.GB.get_size then val / DataScale.GB.get_size
    else if val ≥ DataScale.TB.get_size then val / DataScale.TB.get_size
    else val
  | _ => if s.get_size = 1 then val else val / s.get_size

/-- `DataScale.get_descriptor` (formatting.py, lines 264-312): the AUTO
branch tests the TB size first (largest first). -/
def DataScale.get_descriptor (s : DataScale) (val : ℚ) : String :=
  match s with
  | .NONE => ""
  | .AUTO =>
    if val ≥ DataScale.TB.get_size then "TB"
    else if val ≥ DataScale.GB.get_size then "GB"
    else if val ≥ DataScale.MB.get_size then "MB"
    else if val ≥ DataScale.KB.get_size then "KB"
    else if val ≥ DataScale.B.get_size then "B"
    else ""
  | .B => "B"
  | .KB => "KB"
  | .MB => "MB"
  | .GB => "GB"
  | .TB => "TB"

/-- The scale factor claim C4 assigns to each NumericScale suffix. -/
def numericSuffixFactor (d : String) : ℚ :=
  if d = "K" then 1000
  else if d = "M" then 1000000
  else if d = "B" then 1000000000
  else 1

/-- The scale factor claim C4 assigns to each DataScale suffix
(an empty suffix and the byte suffix both denote factor 1). -/
def dataSuffixFactor (d : String) : ℚ :=
  if d = "KB" then 1024
  else if d = "MB" then 1048576
  else if d = "GB" then 1073741824
  else if d = "TB" then 1099511627776
  else 1

/-- Claim C4, evaluated at the failing input `2^20 = 1048576` bytes:
`DataScale.AUTO.get_scaled_value` divides by the KB size (its AUTO
branch tests the smallest size first) while `get_descriptor` picks
"MB" (largest first), so the scaled value times the suffix factor does
not recover the original value; the `NumericScale` AUTO pair at the
same input is mutually consistent. -/
theorem dataScale_auto_mismatch :
    DataScale.AUTO.get_scaled_value 1048576 = 1024 ∧
    DataScale.AUTO.get_descriptor 1048576 = "MB" ∧
    DataScale.AUTO.get_scaled_value 1048576
        * dataSuffixFactor (DataScale.AUTO.get_descriptor 1048576) ≠ 1048576 ∧
    NumericScale.AUTO.get_scaled_value 1048576
        * numericSuffixFactor (NumericScale.AUTO.get_descriptor 1048576) = 1048576 := by
  have h1 : DataScale.AUTO.get_scaled_value 1048576 = 1024 := by
    norm_num [DataScale.get_scaled_value, DataScale.get_size]
  have h2 : DataScale.AUTO.get_descriptor 1048576 = "MB" := by
    norm_num [DataScale.get_descriptor, DataScale.get_size]
  have h3 : NumericScale.AUTO.get_scaled_value 1048576 = 1048576 / 1000000 := by
    norm_num [NumericScale.get_scaled_value, NumericScale.get_size]
  have h4 : NumericScale.AUTO.get_descriptor 1048576 = "M" := by
    norm_num [NumericScale.get_descriptor, NumericScale.get_size]
  have h5 : dataSuffixFactor "MB" = 1048576 := by decide
  have h6 : numericSuffixFactor "M" = 1000000 := by decide
  refine ⟨h1, h2, ?_, ?_⟩
  · rw [h1, h2, h5]
    norm_num
  · rw [h3, h4, h6]
    norm_num

/-- `TextAlignment` (formatting.py, lines 15-49). -/
inductive TextAlignment
  | DEFAULT
  | LEFT
  | CENTER
  | RIGHT
  deriving DecidableEq

/-- `TextAlignment.formatting_symbol` (formatting.py, lines 32-49). -/
def TextAlignment.formatting_symbol : TextAlignment → String
  | .LEFT => "<"
  | .CENTER => "^"
  | .RIGHT => ">"
  | _ => ""

/-- `FormatType` (formatting.py, lines 71-83). -/
inductive FormatType
  | INTEGER
  | FLOAT
  | CURRENCY
  | VALUE_DESC
  | DATETIME
  | STRING
  | PERCENTAGE
  | DATA
  | ENUM
  | BOOL
  deriving DecidableEq

/-- The attributes of a float-family `FormatConfig` (Float, Integer,
Currency, Percentage, ValueDesc all derive `fmt` through
`FloatFormat.get_format`), plus the cached `fmt` string
(formatting.py, lines 335-578 and 821-895). -/
structure FloatFormatState where
  format_type : FormatType
  width : Option Int
  precision : Int
  always_include_sign : Bool
  accounting_style : Bool
  thousands_separator : String
  decimal_symbol : String
  pad_value : String
  numeric_scale : NumericScale
  alignment : TextAlignment
  fallback : String
  fmt : String
  deriving DecidableEq

/-- `FloatFormat.get_format` (formatting.py, lines 864-895). -/
def FloatFormatState.get_format (config : FloatFormatState) : String :=
  let align := if config.accounting_style then "=" else config.alignment.formatting_symbol
  let sign := if config.always_include_sign then "+" else ""
  let fmt := config.pad_value ++ align ++ sign
  let fmt :=
    match config.width with
    | some w => fmt ++ toString w
    | none => fmt
  let is_percentage := config.format_type = FormatType.PERCENTAGE
  let fmt :=
    if ¬is_percentage ∧ 0 < config.thousands_separator.length then
      fmt ++ config.thousands_separator
    else fmt
  let is_integer := config.format_type = FormatType.INTEGER
  let fmt :=
    if (¬is_integer ∨ config.numeric_scale ≠ NumericScale.NONE)
        ∧ 0 < config.decimal_symbol.length then
      fmt ++ config.decimal_symbol ++ toString config.precision
    else fmt
  if is_percentage then fmt ++ "%"
  else if is_integer ∧ config.numeric_scale = NumericScale.NONE then fmt ++ "d"
  else fmt ++ "f"

/-- The property setters of `FormatConfig` that a float-family config
exposes; each corresponds to one `@x.setter` (formatting.py, lines
335-506). -/
inductive FloatSetter
  | setWidth (v : Option Int)
  | setPrecision (v : Int)
  | setAlwaysIncludeSign (v : Bool)
  | setAccountingStyle (v : Bool)
  | setThousandsSeparator (v : String)
  | setDecimalSymbol (v : String)
  | setPadValue (v : String)
  | setNumericScale (v : NumericScale)
  | setAlignment (v : TextAlignment)
  | setFallback (v : String)
  deriving DecidableEq

/-- Apply one `FormatConfig` setter: assign the attribute, then rerun
`_generate_fmt` (which for the float family is
`FloatFormat.get_format`), exactly as every setter in formatting.py
lines 335-506 does. -/
def applyFloatSetter (s : FloatFormatState) : FloatSetter → FloatFormatState
  | .setWidth v =>
    let s' := { s with width := v }
    { s' with fmt := s'.get_format }
  | .setPrecision v =>
    let s' := { s with precision := v }
    { s' with fmt := s'.get_format }
  | .setAlwaysIncludeSign v =>
    let s' := { s with always_include_sign := v }
    { s' with fmt := s'.get_format }
  | .setAccountingStyle v =>
    let s' := { s with accounting_style := v }
    { s' with fmt := s'.get_format }
  | .setThousandsSeparator v =>
    let s' := { s with thousands_separator := v }
    { s' with fmt := s'.get_format }
  | .setDecimalSymbol v =>
    let s' := { s with decimal_symbol := v }
    { s' with fmt := s'.get_format }
  | .setPadValue v =>
    let s' := { s with pad_value := v }
    { s' with fmt := s'.get_format }
  | .setNumericScale v =>
    let s' := { s with numeric_scale := v }
    { s' with fmt := s'.get_format }
  | .setAlignment v =>
    let s' := { s with alignment := v }
    { s' with fmt := s'.get_format }
  | .setFallback v =>
    let s' := { s with fallback := v }
    { s' with fmt := s'.get_format }

/-- Apply a sequence of float-family setter assignments in order. -/
def applyFloatSetters (s : FloatFormatState) (l : List FloatSetter) : FloatFormatState :=
  l.foldl applyFloatSetter s

/-- The cached fmt of a float-family config agrees with what
`_generate_fmt` would derive from the current attributes. -/
def floatFmtSync (s : FloatFormatState) : Prop := s.fmt = s.get_format

/-- The attributes of `DateTimeFormat` (formatting.py, lines
1017-1105), plus the cached `fmt`. -/
structure DateTimeFormatState where
  date_format : String
  time_format : String
  separator : String
  use_duration_format : Bool
  alignment : TextAlignment
  fallback : String
  fmt : String
  deriving DecidableEq

/-- `DateTimeFormat._generate_fmt` (formatting.py, lines 1066-1078):
the separator is placed between `date_format` and `time_format`, and
dropped when the date part is empty. -/
def DateTimeFormatState.generate_fmt (s : DateTimeFormatState) : String :=
  let fmt := ""
  let pair :=
    if 0 < s.date_format.length then (fmt ++ s.date_format, s.separator) else (fmt, "")
  if 0 < s.time_format.length then pair.1 ++ pair.2 ++ s.time_format else pair.1

/-- `DateTimeFormat.__init__` (formatting.py, lines 1047-1064): stores
separator and duration flag, then the base initializer assigns the
remaining attributes and ends with `_generate_fmt`. -/
def mkDateTimeFormat (date_format time_format : Option String) (separator : String)
    (use_duration_format : Bool) (alignment : TextAlignment) (fallback : String) :
    DateTimeFormatState :=
  let s : DateTimeFormatState :=
    { date_format := date_format.getD "", time_format := time_format.getD "",
      separator := separator, use_duration_format := use_duration_format,
      alignment := alignment, fallback := fallback, fmt := "" }
  { s with fmt := s.generate_fmt }

/-- The property setters a `DateTimeFormat` exposes (formatting.py,
lines 437-461, 494-506 and 1031-1045). -/
inductive DtSetter
  | setDateFormat (v : String)
  | setTimeFormat (v : String)
  | setSeparator (v : String)
  | setUseDurationFormat (v : Bool)
  | setAlignment (v : TextAlignment)
  | setFallback (v : String)
  deriving DecidableEq

/-- Apply one `DateTimeFormat` setter.  `valid` is the
`_is_valid_date_format` oracle (it calls `strftime`, external to the
embedding): an invalid date/time format leaves the state unchanged.
The `separator` setter (formatting.py, lines 1043-1045) assigns the
attribute WITHOUT rerunning `_generate_fmt`; so does
`use_duration_format` (whose value `_generate_fmt` never reads). -/
def applyDtSetter (valid : String → Bool) (s : DateTimeFormatState) :
    DtSetter → DateTimeFormatState
  | .setDateFormat v =>
    if valid v then
      let s' := { s with date_format := v }
      { s' with fmt := s'.generate_fmt }
    else s
  | .setTimeFormat v =>
    if valid v then
      let s' := { s with time_format := v }
      { s' with fmt := s'.generate_fmt }
    else s
  | .setSeparator v => { s with separator := v }
  | .setUseDurationFormat v => { s with use_duration_format := v }
  | .setAlignment v =>
    let s' := { s with alignment := v }
    { s' with fmt := s'.generate_fmt }
  | .setFallback v =>
    let s' := { s with fallback := v }
    { s' with fmt := s'.generate_fmt }

/-- Apply a sequence of `DateTimeFormat` setter assignments in order. -/
def applyDtSetters (valid : String → Bool) (s : DateTimeFormatState)
    (l : List DtSetter) : DateTimeFormatState :=
  l.foldl (applyDtSetter valid) s

/-- The cached fmt of a `DateTimeFormat` agrees with what
`_generate_fmt` would derive from the current attributes. -/
def dtFmtSync (s : DateTimeFormatState) : Prop := s.fmt = s.generate_fmt

/-- Counterexample to claim C6 as stated: after a single assignment to
`DateTimeFormat.separator` the cached fmt is stale - the setter does
not rerun `_generate_fmt`, so the new separator is not placed between
`date_format` and `time_format`. -/
theorem separator_setter_stale_cex :
    (applyDtSetter (fun _ => true)
        (mkDateTimeFormat (some "%Y") (some "%H") " " false .RIGHT "-")
        (.setSeparator "T")).fmt
      ≠ (applyDtSetter (fun _ => true)
        (mkDateTimeFormat (some "%Y") (some "%H") " " false .RIGHT "-")
        (.setSeparator "T")).generate_fmt := by
  decide

/-- Claim C6 (amended): every float-family setter re-derives `fmt`, so
`fmt` stays in sync with `_generate_fmt` under any sequence of setter
assignments; for `DateTimeFormat` the same holds for every sequence
that avoids the `separator` setter - that one assigns the attribute
without regenerating, leaving `fmt` stale
(`separator_setter_stale_cex`). -/
theorem fmt_sync_except_separator :
    (∀ (l : List FloatSetter) (s : FloatFormatState),
      floatFmtSync s → floatFmtSync (applyFloatSetters s l)) ∧
    (∀ (valid : String → Bool) (l : List DtSetter) (s : DateTimeFormatState),
      (∀ a ∈ l, ∀ v, a ≠ DtSetter.setSeparator v) →
      dtFmtSync s → dtFmtSync (applyDtSetters valid s l)) := by
  constructor
  · intro l
    induction l with
    | nil => intro s hs; exact hs
    | cons a rest ih =>
      intro s hs
      have hstep : floatFmtSync (applyFloatSetter s a) := by
        cases a <;> rfl
      exact ih (applyFloatSetter s a) hstep
  · intro valid l
    induction l with
    | nil => intro s _ hs; exact hs
    | cons a rest ih =>
      intro s hsep hs
      have hstep : dtFmtSync (applyDtSetter valid s a) := by
        cases a with
        | setDateFormat v =>
          by_cases hv : valid v
          · simp only [applyDtSetter, if_pos hv]; rfl
          · simp only [applyDtSetter, if_neg hv]; exact hs
        | setTimeFormat v =>
          by_cases hv : valid v
          · simp only [applyDtSetter, if_pos hv]; rfl
          · simp only [applyDtSetter, if_neg hv]; exact hs
        | setSeparator v => exact absurd rfl (hsep _ (by simp) v)
        | setUseDurationFormat v => exact hs
        | setAlignment v => rfl
        | setFallback v => rfl
      exact ih (applyDtSetter valid s a) (fun b hb => hsep b (by simp [hb])) hstep

/-- Concrete float-family configuration (the `FloatFormat` defaults)
with its fmt freshly generated. -/
def floatFmt0 : FloatFormatState :=
  let base : FloatFormatState :=
    { format_type := .FLOAT, width := none, precision := 2,
      always_include_sign := false, accounting_style := false,
      thousands_separator := ",", decimal_symbol := ".", pad_value := "",
      numeric_scale := .NONE, alignment := .RIGHT, fallback := "-", fmt := "" }
  { base with fmt := base.get_format }

/-- Witness for the amended C6: one precision assignment on a concrete
float config, and one date-format assignment on a concrete
`DateTimeFormat`, both leave fmt in sync. -/
theorem fmt_sync_except_separator_witness :
    floatFmtSync (applyFloatSetters floatFmt0 [FloatSetter.setPrecision 3]) ∧
    dtFmtSync (applyDtSetters (fun _ => true)
      (mkDateTimeFormat (some "%Y") (some "%H") " " false .RIGHT "-")
      [DtSetter.setDateFormat "%d"]) :=
  ⟨fmt_sync_except_separator.1 [FloatSetter.setPrecision 3] floatFmt0 rfl,
   fmt_sync_except_separator.2 (fun _ => true) [DtSetter.setDateFormat "%d"]
     (mkDateTimeFormat (some "%Y") (some "%H") " " false .RIGHT "-")
     (by intro a ha v; simp at ha; subst ha; simp) rfl⟩

/-- The exceptions Python formatting can raise; `format_value` catches
exactly `ValueError` and `TypeError`. -/
inductive PyErr
  | valueError
  | typeError
  | other
  deriving DecidableEq

/-- The pieces of a `FormatConfig` that `format_value` touches: the
configured fallback, the subclass `_get_formatted_value` (which may
raise), and Python's `str`. -/
structure FormatValueConfig (V : Type) where
  fallback : String
  get_formatted : V → Except PyErr String
  str_fn : V → String

/-- `FormatConfig.format_value` (formatting.py, lines 587-594): `None`
returns the fallback; a `ValueError` or `TypeError` from
`_get_formatted_value` is converted to `str(val)`; other exceptions
propagate.  The method assigns no attribute, so the configuration
comes back unchanged alongside the result. -/
def format_value {V : Type} (cfg : FormatValueConfig V) (val : Option V) :
    Except PyErr String × FormatValueConfig V :=
  match val with
  | none => (.ok cfg.fallback, cfg)
  | some v =>
    match cfg.get_formatted v with
    | .ok s => (.ok s, cfg)
    | .error .valueError => (.ok (cfg.str_fn v), cfg)
    | .error .typeError => (.ok (cfg.str_fn v), cfg)
    | .error .other => (.error .other, cfg)

/-- Claim C7: `format_value` returns exactly the configured fallback on
`None`; when the underlying formatting raises `ValueError` or
`TypeError` it returns `str(val)` instead of propagating; and in every
case the configuration state is unchanged. -/
theorem format_value_spec {V : Type} (cfg : FormatValueConfig V) (val : Option V) :
    format_value cfg none = (.ok cfg.fallback, cfg) ∧
    (∀ v e, val = some v → cfg.get_formatted v = .error e →
      (e = PyErr.valueError ∨ e = PyErr.typeError) →
      format_value cfg val = (.ok (cfg.str_fn v), cfg)) ∧
    (format_value cfg val).2 = cfg := by
  refine ⟨rfl, ?_, ?_⟩
  · rintro v e rfl herr hvt
    rcases hvt with rfl | rfl <;> simp [format_value, herr]
  · cases val with
    | none => rfl
    | some v =>
      cases hg : cfg.get_formatted v with
      | ok s => simp [format_value, hg]
      | error e => cases e <;> simp [format_value, hg]

/-- Concrete configuration whose formatter always raises ValueError. -/
def fvCfg : FormatValueConfig Nat :=
  { fallback := "-", get_formatted := fun _ => .error .valueError,
    str_fn := fun _ => "5" }

/-- Witness for C7: on the concrete config `fvCfg`, `None` yields the
fallback and a raising input yields str(val). -/
theorem format_value_spec_witness :
    format_value fvCfg none = (.ok "-", fvCfg) ∧
    format_value fvCfg (some 5) = (.ok "5", fvCfg) :=
  ⟨(format_value_spec fvCfg (some 5)).1,
   (format_value_spec fvCfg (some 5)).2.1 5 .valueError rfl rfl (Or.inl rfl)⟩

/-- Configuration of the `_calc_metrics` sizing pass (tables.py, lines
847-1050) in the restricted setting of claim C5: headers included, no
`fixed_width`, no `has_consistent_width` / `has_consistent_height`, no
`rotation`, no `max_width_chars` - so in the data loop `skip_width`,
`skip_height` and `is_wrapping` are all False and the measurement path
runs for every cell.  `num_styles c` is the length of column `c`'s
`unique_detail_sizing_styles` (always at least 1 in the source, since
the list starts from `detail_style`). -/
structure CalcConfig where
  num_cols : Nat
  num_rows : Nat
  num_styles : Nat → Nat
  max_col_width : Option ℚ
  detail_vert_padding_fraction : ℚ
  header_vert_padding_fraction : ℚ
  idx : Nat → Int

/-- Text-measurement oracle: the values `_calc_text_dim` returns
(already including the w_pad / h_pad the source passes to it), indexed
by row iloc, column position and sizing-style position.  `default_h`
measures the "Agj" probe text used for the default detail row height. -/
structure MeasureOracle where
  default_h : Nat → Nat → ℚ
  header_w : Nat → ℚ
  header_h : Nat → ℚ
  cell_w : Nat → Nat → Nat → ℚ
  cell_h : Nat → Nat → Nat → ℚ

/-- Default detail row height (tables.py, lines 929-942): maximum over
columns and sizing styles of the measured "Agj" height plus the detail
vertical padding, starting from 0. -/
def detailRowHeight (cfg : CalcConfig) (o : MeasureOracle) : ℚ :=
  (List.range cfg.num_cols).foldl
    (fun acc c =>
      (List.range (cfg.num_styles c)).foldl
        (fun acc2 st =>
          let cand := o.default_h c st + cfg.detail_vert_padding_fraction
          if acc2 < cand then cand else acc2)
        acc)
    0

/-- Header row height (tables.py, lines 945-971, headers included):
maximum over columns of measured header height plus header padding. -/
def headerRowHeight (cfg : CalcConfig) (o : MeasureOracle) : ℚ :=
  (List.range cfg.num_cols).foldl
    (fun acc c =>
      let cand := o.header_h c + cfg.header_vert_padding_fraction
      if acc < cand then cand else acc)
    0

/-- Mutable state the data loop of `_calc_metrics` updates: per-column
widths and clip flags, and per-row height exceptions. -/
structure MetricsState where
  widths : Nat → ℚ
  clips : Nat → Bool
  row_height_exceptions : Int → Option ℚ

/-- One measurement check (tables.py, lines 1017-1042) for style `st`
of the cell at row `r`, column `c`, acting on
`(max_h_for_this_row, width, clip)`: raise the row max, raise the
column width, then clamp the width to `max_col_width` (setting the
clip flag) when it exceeds the cap. -/
def styleStep (cfg : CalcConfig) (o : MeasureOracle) (r c st : Nat)
    (acc : ℚ × ℚ × Bool) : ℚ × ℚ × Bool :=
  let text_width := o.cell_w r c st
  let text_height := o.cell_h r c st + cfg.detail_vert_padding_fraction
  let max_h := if acc.1 < text_height then text_height else acc.1
  let w := if acc.2.1 < text_width then text_width else acc.2.1
  match cfg.max_col_width with
  | none => (max_h, w, acc.2.2)
  | some cap => if cap < w then (max_h, cap, true) else (max_h, w, acc.2.2)

/-- Process one column of one row (tables.py, lines 980-1043): run the
style checks from the column's current width/clip and the row height
accumulator, then store the resulting width and clip flag. -/
def colStep (cfg : CalcConfig) (o : MeasureOracle) (r : Nat)
    (acc : ℚ × MetricsState) (c : Nat) : ℚ × MetricsState :=
  let res := (List.range (cfg.num_styles c)).foldl
      (fun a st => styleStep cfg o r c st a)
      (acc.1, acc.2.widths c, acc.2.clips c)
  (res.1,
   { acc.2 with
       widths := fun x => if x = c then res.2.1 else acc.2.widths x,
       clips := fun x => if x = c then res.2.2 else acc.2.clips x })

/-- Process one dataframe row (tables.py, lines 977-1048):
`max_h_for_this_row` starts at the default detail row height, every
column is measured, and a height exception is recorded when the row
max exceeds the default.  The dict entry is keyed by the row's
`iterrows` index label `cfg.idx r` (tables.py, line 1048), so a later
row with the same label overwrites an earlier row's entry. -/
def rowStep (cfg : CalcConfig) (o : MeasureOracle) (dh : ℚ)
    (ms : MetricsState) (r : Nat) : MetricsState :=
  let res := (List.range cfg.num_cols).foldl (colStep cfg o r) (dh, ms)
  if dh < res.1 then
    { res.2 with row_height_exceptions :=
        fun x => if x = cfg.idx r then some res.1 else res.2.row_height_exceptions x }
  else res.2

/-- The data pass of `_calc_metrics` under the claim C5 restrictions:
widths start at the measured header widths (tables.py, lines 967-968,
columns are not fixed-width), clip flags start cleared, no height
exceptions, then every row is processed in iloc order. -/
def calc_metrics (cfg : CalcConfig) (o : MeasureOracle) : MetricsState :=
  let ms0 : MetricsState :=
    { widths := o.header_w, clips := fun _ => false,
      row_height_exceptions := fun _ => none }
  (List.range cfg.num_rows).foldl (rowStep cfg o (detailRowHeight cfg o)) ms0

/-- The effective height of the row at iloc `r` after `_calc_metrics`:
`Table.get_row_height` (tables.py, lines 546-548) looks the exception
dict up under the row's index label `data.index[row_iloc]`, falling
back to the default detail row height. -/
def effRowHeight (cfg : CalcConfig) (o : MeasureOracle) (r : Nat) : ℚ :=
  ((calc_metrics cfg o).row_height_exceptions (cfg.idx r)).getD (detailRowHeight cfg o)

/-- The maximum of the measured header width and all measured cell
widths of column `c` - the width the claim says the column ends up
with (before the `max_col_width` clamp). -/
def colMaxWidth (cfg : CalcConfig) (o : MeasureOracle) (c : Nat) : ℚ :=
  (List.range cfg.num_rows).foldl
    (fun a r =>
      (List.range (cfg.num_styles c)).foldl
        (fun b st => max b (o.cell_w r c st)) a)
    (o.header_w c)

lemma if_lt_max (a b : ℚ) : (if a < b then b else a) = max a b := by
  rcases le_or_lt b a with h | h
  · rw [if_neg (not_lt.2 h), max_eq_left h]
  · rw [if_pos h, max_eq_right h.le]

lemma foldl_max_init_le : ∀ (L : List ℚ) (a : ℚ), a ≤ L.foldl max a := by
  intro L
  induction L with
  | nil => intro a; simp
  | cons t L ih =>
    intro a
    rw [List.foldl_cons]
    exact le_trans (le_max_left a t) (ih (max a t))

lemma foldl_max_mem_le : ∀ (L : List ℚ) (a x : ℚ), x ∈ L → x ≤ L.foldl max a := by
  intro L
  induction L with
  | nil => intro a x hx; cases hx
  | cons t L ih =>
    intro a x hx
    rw [List.foldl_cons]
    rcases List.mem_cons.1 hx with rfl | hx'
    · exact le_trans (le_max_right a x) (foldl_max_init_le L (max a x))
    · exact ih (max a t) x hx'

/-- The width/clip part of one measurement check: raise the running
width by the measured text width, then clamp to the cap, setting the
clip flag, when the running width exceeds it. -/
def wcStep (cap : Option ℚ) (tw : ℚ) (a : ℚ × Bool) : ℚ × Bool :=
  let w := if a.1 < tw then tw else a.1
  match cap with
  | none => (w, a.2)
  | some capv => if capv < w then (capv, true) else (w, a.2)

/-- The row-height part of one measurement check. -/
def hStep (cfg : CalcConfig) (o : MeasureOracle) (r c : Nat) (mh : ℚ) (st : Nat) : ℚ :=
  let th := o.cell_h r c st + cfg.detail_vert_padding_fraction
  if mh < th then th else mh

lemma styleStep_eq (cfg : CalcConfig) (o : MeasureOracle) (r c st : Nat)
    (mh : ℚ) (wc : ℚ × Bool) :
    styleStep cfg o r c st (mh, wc)
      = (hStep cfg o r c mh st, wcStep cfg.max_col_width (o.cell_w r c st) wc) := by
  cases hcap : cfg.max_col_width with
  | none => simp [styleStep, hStep, wcStep, hcap]
  | some cap =>
    simp only [styleStep, hStep, wcStep, hcap]
    split <;> split <;> rfl

lemma foldl_styleStep_decomp (cfg : CalcConfig) (o : MeasureOracle) (r c : Nat) :
    ∀ (L : List Nat) (mh : ℚ) (wc : ℚ × Bool),
      L.foldl (fun a st => styleStep cfg o r c st a) (mh, wc)
        = (L.foldl (hStep cfg o r c) mh,
           L.foldl (fun b st => wcStep cfg.max_col_width (o.cell_w r c st) b) wc) := by
  intro L
  induction L with
  | nil => intro mh wc; rfl
  | cons t L ih =>
    intro mh wc
    rw [List.foldl_cons, List.foldl_cons, List.foldl_cons, styleStep_eq]
    exact ih _ _

/-- The width/clip evolution of column `c` across the style checks of
one row. -/
def styleFoldWC (cfg : CalcConfig) (o : MeasureOracle) (r c : Nat) (a : ℚ × Bool) : ℚ × Bool :=
  (List.range (cfg.num_styles c)).foldl
    (fun b st => wcStep cfg.max_col_width (o.cell_w r c st) b) a

lemma colStep_fst (cfg : CalcConfig) (o : MeasureOracle) (r : Nat)
    (acc : ℚ × MetricsState) (c : Nat) :
    (colStep cfg o r acc c).1
      = (List.range (cfg.num_styles c)).foldl (hStep cfg o r c) acc.1 := by
  show ((List.range (cfg.num_styles c)).foldl (fun a st => styleStep cfg o r c st a)
      (acc.1, acc.2.widths c, acc.2.clips c)).1 = _
  rw [foldl_styleStep_decomp]

lemma colStep_widths (cfg : CalcConfig) (o : MeasureOracle) (r : Nat)
    (acc : ℚ × MetricsState) (c x : Nat) :
    (colStep cfg o r acc c).2.widths x
      = if x = c then (styleFoldWC cfg o r c (acc.2.widths c, acc.2.clips c)).1
        else acc.2.widths x := by
  show (if x = c then ((List.range (cfg.num_styles c)).foldl
      (fun a st => styleStep cfg o r c st a) (acc.1, acc.2.widths c, acc.2.clips c)).2.1
      else acc.2.widths x) = _
  rw [foldl_styleStep_decomp]
  rfl

lemma colStep_clips (cfg : CalcConfig) (o : MeasureOracle) (r : Nat)
    (acc : ℚ × MetricsState) (c x : Nat) :
    (colStep cfg o r acc c).2.clips x
      = if x = c then (styleFoldWC cfg o r c (acc.2.widths c, acc.2.clips c)).2
        else acc.2.clips x := by
  show (if x = c then ((List.range (cfg.num_styles c)).foldl
      (fun a st => styleStep cfg o r c st a) (acc.1, acc.2.widths c, acc.2.clips c)).2.2
      else acc.2.clips x) = _
  rw [foldl_styleStep_decomp]
  rfl

lemma colStep_exceptions (cfg : CalcConfig) (o : MeasureOracle) (r : Nat)
    (acc : ℚ × MetricsState) (c : Nat) :
    (colStep cfg o r acc c).2.row_height_exceptions = acc.2.row_height_exceptions := rfl

lemma foldl_colStep_fst (cfg : CalcConfig) (o : MeasureOracle) (r : Nat) :
    ∀ (L : List Nat) (acc : ℚ × MetricsState),
      (L.foldl (colStep cfg o r) acc).1
        = L.foldl
            (fun m c => (List.range (cfg.num_styles c)).foldl (hStep cfg o r c) m)
            acc.1 := by
  intro L
  induction L with
  | nil => intro acc; rfl
  | cons t L ih =>
    intro acc
    rw [List.foldl_cons, List.foldl_cons, ih, colStep_fst]

lemma foldl_colStep_exceptions (cfg : CalcConfig) (o : MeasureOracle) (r : Nat) :
    ∀ (L : List Nat) (acc : ℚ × MetricsState),
      (L.foldl (colStep cfg o r) acc).2.row_height_exceptions
        = acc.2.row_height_exceptions := by
  intro L
  induction L with
  | nil => intro acc; rfl
  | cons t L ih =>
    intro acc
    rw [List.foldl_cons, ih, colStep_exceptions]

lemma foldl_colStep_wc_notmem (cfg : CalcConfig) (o : MeasureOracle) (r : Nat) :
    ∀ (L : List Nat) (acc : ℚ × MetricsState) (c : Nat), c ∉ L →
      (L.foldl (colStep cfg o r) acc).2.widths c = acc.2.widths c ∧
      (L.foldl (colStep cfg o r) acc).2.clips c = acc.2.clips c := by
  intro L
  induction L with
  | nil => intro acc c _; exact ⟨rfl, rfl⟩
  | cons t L ih =>
    intro acc c hc
    have hct : c ≠ t := fun h => hc (h ▸ List.mem_cons_self t L)
    have hcl : c ∉ L := fun h => hc (List.mem_cons_of_mem t h)
    rw [List.foldl_cons]
    obtain ⟨hw, hcl'⟩ := ih (colStep cfg o r acc t) c hcl
    rw [hw, hcl', colStep_widths, colStep_clips, if_neg hct, if_neg hct]
    exact ⟨rfl, rfl⟩

lemma foldl_colStep_wc_mem (cfg : CalcConfig) (o : MeasureOracle) (r : Nat) :
    ∀ (L : List Nat) (acc : ℚ × MetricsState) (c : Nat), L.Nodup → c ∈ L →
      ((L.foldl (colStep cfg o r) acc).2.widths c,
       (L.foldl (colStep cfg o r) acc).2.clips c)
        = styleFoldWC cfg o r c (acc.2.widths c, acc.2.clips c) := by
  intro L
  induction L with
  | nil => intro acc c _ hc; cases hc
  | cons t L ih =>
    intro acc c hnd hc
    rw [List.foldl_cons]
    rcases List.mem_cons.1 hc with rfl | hcL
    · have hcnot : c ∉ L := (List.nodup_cons.1 hnd).1
      obtain ⟨hw, hcl⟩ := foldl_colStep_wc_notmem cfg o r L (colStep cfg o r acc c) c hcnot
      rw [hw, hcl, colStep_widths, colStep_clips, if_pos rfl, if_pos rfl]
    · have hct : c ≠ t := by
        intro h
        exact (List.nodup_cons.1 hnd).1 (h ▸ hcL)
      rw [ih (colStep cfg o r acc t) c (List.nodup_cons.1 hnd).2 hcL,
        colStep_widths, colStep_clips, if_neg hct, if_neg hct]

/-- The row maximum `max_h_for_this_row` computed for row `r`, starting
from the default detail row height `dh`. -/
def rowMaxH (cfg : CalcConfig) (o : MeasureOracle) (dh : ℚ) (r : Nat) : ℚ :=
  (List.range cfg.num_cols).foldl
    (fun m c => (List.range (cfg.num_styles c)).foldl (hStep cfg o r c) m) dh

lemma rowStep_wc (cfg : CalcConfig) (o : MeasureOracle) (dh : ℚ)
    (ms : MetricsState) (r x : Nat) :
    (rowStep cfg o dh ms r).widths x
        = ((List.range cfg.num_cols).foldl (colStep cfg o r) (dh, ms)).2.widths x ∧
    (rowStep cfg o dh ms r).clips x
        = ((List.range cfg.num_cols).foldl (colStep cfg o r) (dh, ms)).2.clips x := by
  rw [rowStep]
  split <;> exact ⟨rfl, rfl⟩

lemma rowStep_wc_eq (cfg : CalcConfig) (o : MeasureOracle) (dh : ℚ)
    (ms : MetricsState) (r c : Nat) (hc : c < cfg.num_cols) :
    ((rowStep cfg o dh ms r).widths c, (rowStep cfg o dh ms r).clips c)
      = styleFoldWC cfg o r c (ms.widths c, ms.clips c) := by
  obtain ⟨hw, hcl⟩ := rowStep_wc cfg o dh ms r c
  rw [hw, hcl]
  exact foldl_colStep_wc_mem cfg o r (List.range cfg.num_cols) (dh, ms) c
    (List.nodup_range _) (List.mem_range.2 hc)

lemma rowStep_exceptions_self (cfg : CalcConfig) (o : MeasureOracle) (dh : ℚ)
    (ms : MetricsState) (r : Nat) :
    (rowStep cfg o dh ms r).row_height_exceptions (cfg.idx r)
      = if dh < rowMaxH cfg o dh r then some (rowMaxH cfg o dh r)
        else ms.row_height_exceptions (cfg.idx r) := by
  have hfst : ((List.range cfg.num_cols).foldl (colStep cfg o r) (dh, ms)).1
      = rowMaxH cfg o dh r := foldl_colStep_fst cfg o r _ _
  have hexc := foldl_colStep_exceptions cfg o r (List.range cfg.num_cols) (dh, ms)
  rw [rowStep]
  split
  · rename_i hlt
    rw [hfst] at hlt
    rw [if_pos hlt]
    show (if cfg.idx r = cfg.idx r
        then some ((List.range cfg.num_cols).foldl (colStep cfg o r) (dh, ms)).1
        else _) = _
    rw [if_pos rfl, hfst]
  · rename_i hlt
    rw [hfst] at hlt
    rw [if_neg hlt, hexc]

lemma rowStep_exceptions_ne (cfg : CalcConfig) (o : MeasureOracle) (dh : ℚ)
    (ms : MetricsState) (r : Nat) (y : Int) (hy : y ≠ cfg.idx r) :
    (rowStep cfg o dh ms r).row_height_exceptions y = ms.row_height_exceptions y := by
  have hexc := foldl_colStep_exceptions cfg o r (List.range cfg.num_cols) (dh, ms)
  rw [rowStep]
  split
  · show (if y = cfg.idx r then _ else _) = _
    rw [if_neg hy, hexc]
  · rw [hexc]

lemma foldl_rowStep_wc (cfg : CalcConfig) (o : MeasureOracle) (dh : ℚ) :
    ∀ (L : List Nat) (ms : MetricsState) (c : Nat), c < cfg.num_cols →
      ((L.foldl (rowStep cfg o dh) ms).widths c, (L.foldl (rowStep cfg o dh) ms).clips c)
        = L.foldl (fun a r => styleFoldWC cfg o r c a) (ms.widths c, ms.clips c) := by
  intro L
  induction L with
  | nil => intro ms c _; rfl
  | cons t L ih =>
    intro ms c hc
    rw [List.foldl_cons, List.foldl_cons, ih (rowStep cfg o dh ms t) c hc,
      rowStep_wc_eq cfg o dh ms t c hc]

lemma foldl_rowStep_exceptions_notmem (cfg : CalcConfig) (o : MeasureOracle) (dh : ℚ) :
    ∀ (L : List Nat) (ms : MetricsState) (y : Int), (∀ t ∈ L, cfg.idx t ≠ y) →
      (L.foldl (rowStep cfg o dh) ms).row_height_exceptions y
        = ms.row_height_exceptions y := by
  intro L
  induction L with
  | nil => intro ms y _; rfl
  | cons t L ih =>
    intro ms y hy
    have hyt : y ≠ cfg.idx t := fun h => hy t (List.mem_cons_self t L) h.symm
    have hyL : ∀ u ∈ L, cfg.idx u ≠ y := fun u hu => hy u (List.mem_cons_of_mem t hu)
    rw [List.foldl_cons, ih (rowStep cfg o dh ms t) y hyL,
      rowStep_exceptions_ne cfg o dh ms t y hyt]

lemma foldl_rowStep_exceptions_mem (cfg : CalcConfig) (o : MeasureOracle) (dh : ℚ) :
    ∀ (L : List Nat) (ms : MetricsState) (r : Nat), L.Nodup → r ∈ L →
      (∀ t ∈ L, cfg.idx t = cfg.idx r → t = r) →
      ms.row_height_exceptions (cfg.idx r) = none →
      (L.foldl (rowStep cfg o dh) ms).row_height_exceptions (cfg.idx r)
        = if dh < rowMaxH cfg o dh r then some (rowMaxH cfg o dh r) else none := by
  intro L
  induction L with
  | nil => intro ms r _ hr; cases hr
  | cons t L ih =>
    intro ms r hnd hr hlab hnone
    rw [List.foldl_cons]
    rcases List.mem_cons.1 hr with rfl | hrL
    · have hrnot : r ∉ L := (List.nodup_cons.1 hnd).1
      have hlabL : ∀ u ∈ L, cfg.idx u ≠ cfg.idx r := by
        intro u hu heq
        exact hrnot ((hlab u (List.mem_cons_of_mem r hu) heq) ▸ hu)
      rw [foldl_rowStep_exceptions_notmem cfg o dh L (rowStep cfg o dh ms r)
          (cfg.idx r) hlabL,
        rowStep_exceptions_self, hnone]
    · have hrt : r ≠ t := by
        intro h
        exact (List.nodup_cons.1 hnd).1 (h ▸ hrL)
      have hlabt : cfg.idx r ≠ cfg.idx t := by
        intro h
        exact hrt ((hlab t (List.mem_cons_self t L) h.symm).symm)
      exact ih (rowStep cfg o dh ms t) r (List.nodup_cons.1 hnd).2 hrL
        (fun u hu => hlab u (List.mem_cons_of_mem t hu))
        (by rw [rowStep_exceptions_ne cfg o dh ms t (cfg.idx r) hlabt, hnone])

lemma calc_metrics_wc (cfg : CalcConfig) (o : MeasureOracle) (c : Nat)
    (hc : c < cfg.num_cols) :
    ((calc_metrics cfg o).widths c, (calc_metrics cfg o).clips c)
      = (List.range cfg.num_rows).foldl (fun a r => styleFoldWC cfg o r c a)
          (o.header_w c, false) :=
  foldl_rowStep_wc cfg o (detailRowHeight cfg o) (List.range cfg.num_rows)
    ⟨o.header_w, fun _ => false, fun _ => none⟩ c hc

lemma calc_metrics_exceptions (cfg : CalcConfig) (o : MeasureOracle) (r : Nat)
    (hr : r < cfg.num_rows)
    (hinj : ∀ t, t < cfg.num_rows → cfg.idx t = cfg.idx r → t = r) :
    (calc_metrics cfg o).row_height_exceptions (cfg.idx r)
      = if detailRowHeight cfg o < rowMaxH cfg o (detailRowHeight cfg o) r
        then some (rowMaxH cfg o (detailRowHeight cfg o) r) else none :=
  foldl_rowStep_exceptions_mem cfg o (detailRowHeight cfg o) (List.range cfg.num_rows)
    ⟨o.header_w, fun _ => false, fun _ => none⟩ r (List.nodup_range _)
    (List.mem_range.2 hr) (fun t ht => hinj t (List.mem_range.1 ht)) rfl

lemma foldl_foldl_bind {α β γ : Type} (f : β → α → β) (g : γ → List α) :
    ∀ (L : List γ) (a : β),
      L.foldl (fun m x => (g x).foldl f m) a = (L.flatMap g).foldl f a := by
  intro L
  induction L with
  | nil => intro a; rfl
  | cons t L ih =>
    intro a
    rw [List.foldl_cons, List.flatMap_cons, List.foldl_append, ih]

/-- All measured widths of column `c`, in processing order. -/
def colCellWidths (cfg : CalcConfig) (o : MeasureOracle) (c : Nat) : List ℚ :=
  (List.range cfg.num_rows).flatMap
    (fun r => (List.range (cfg.num_styles c)).map (fun st => o.cell_w r c st))

/-- All measured cell heights (plus detail padding) of row `r`, in
processing order. -/
def rowCellHeights (cfg : CalcConfig) (o : MeasureOracle) (r : Nat) : List ℚ :=
  (List.range cfg.num_cols).flatMap
    (fun c => (List.range (cfg.num_styles c)).map
      (fun st => o.cell_h r c st + cfg.detail_vert_padding_fraction))

lemma styleFoldWC_eq_map (cfg : CalcConfig) (o : MeasureOracle) (r c : Nat) (a : ℚ × Bool) :
    styleFoldWC cfg o r c a
      = ((List.range (cfg.num_styles c)).map (fun st => o.cell_w r c st)).foldl
          (fun b tw => wcStep cfg.max_col_width tw b) a := by
  rw [styleFoldWC, List.foldl_map]

lemma calc_metrics_wc_flat (cfg : CalcConfig) (o : MeasureOracle) (c : Nat)
    (hc : c < cfg.num_cols) :
    ((calc_metrics cfg o).widths c, (calc_metrics cfg o).clips c)
      = (colCellWidths cfg o c).foldl (fun a tw => wcStep cfg.max_col_width tw a)
          (o.header_w c, false) := by
  rw [calc_metrics_wc cfg o c hc]
  have hfun : (fun (a : ℚ × Bool) r => styleFoldWC cfg o r c a)
      = fun a r => (((List.range (cfg.num_styles c)).map (fun st => o.cell_w r c st)).foldl
          (fun b tw => wcStep cfg.max_col_width tw b) a) := by
    funext a r
    exact styleFoldWC_eq_map cfg o r c a
  rw [hfun, colCellWidths, foldl_foldl_bind]

lemma colMaxWidth_flat (cfg : CalcConfig) (o : MeasureOracle) (c : Nat) :
    colMaxWidth cfg o c = (colCellWidths cfg o c).foldl max (o.header_w c) := by
  rw [colMaxWidth]
  have hfun : (fun (a : ℚ) r => (List.range (cfg.num_styles c)).foldl
        (fun b st => max b (o.cell_w r c st)) a)
      = fun a r => (((List.range (cfg.num_styles c)).map (fun st => o.cell_w r c st)).foldl
          max a) := by
    funext a r
    rw [List.foldl_map]
  rw [hfun, colCellWidths, foldl_foldl_bind]

lemma rowMaxH_flat (cfg : CalcConfig) (o : MeasureOracle) (dh : ℚ) (r : Nat) :
    rowMaxH cfg o dh r = (rowCellHeights cfg o r).foldl max dh := by
  rw [rowMaxH]
  have hfun : (fun (m : ℚ) c => (List.range (cfg.num_styles c)).foldl (hStep cfg o r c) m)
      = fun m c => (((List.range (cfg.num_styles c)).map
          (fun st => o.cell_h r c st + cfg.detail_vert_padding_fraction)).foldl max m) := by
    funext m c
    rw [List.foldl_map]
    have hstep : hStep cfg o r c
        = fun m' st => max m' (o.cell_h r c st + cfg.detail_vert_padding_fraction) := by
      funext m' st
      rw [hStep]
      exact if_lt_max _ _
    rw [hstep]
  rw [hfun, rowCellHeights, foldl_foldl_bind]

lemma wcStep_none (tw : ℚ) (a : ℚ × Bool) : wcStep none tw a = (max a.1 tw, a.2) := by
  rw [wcStep, if_lt_max]

lemma wc_foldl_none : ∀ (L : List ℚ) (a : ℚ × Bool),
    L.foldl (fun x tw => wcStep none tw x) a = (L.foldl max a.1, a.2) := by
  intro L
  induction L with
  | nil => intro a; rfl
  | cons t L ih =>
    intro a
    rw [List.foldl_cons, List.foldl_cons, wcStep_none, ih]

lemma wcStep_some_start (cap tw w : ℚ) :
    wcStep (some cap) tw (w, false)
      = (min cap (max w tw), decide (cap < max w tw)) := by
  rw [wcStep, if_lt_max]
  rcases lt_or_le cap (max w tw) with h | h
  · rw [if_pos h, min_eq_left h.le, decide_eq_true h]
  · rw [if_neg (not_lt.2 h), min_eq_right h, decide_eq_false (not_lt.2 h)]

lemma wcStep_some_started (cap t A : ℚ) :
    wcStep (some cap) t (min cap A, decide (cap < A))
      = (min cap (max A t), decide (cap < max A t)) := by
  rw [wcStep, if_lt_max]
  rcases le_or_lt A cap with hA | hA
  · rw [min_eq_right hA, decide_eq_false (not_lt.2 hA)]
    rcases lt_or_le cap (max A t) with h | h
    · rw [if_pos h, min_eq_left h.le, decide_eq_true h]
    · rw [if_neg (not_lt.2 h), min_eq_right h, decide_eq_false (not_lt.2 h)]
  · rw [min_eq_left hA.le, decide_eq_true hA]
    have hAm : cap < max A t := lt_of_lt_of_le hA (le_max_left A t)
    rw [min_eq_left hAm.le, decide_eq_true hAm]
    rcases lt_or_le cap t with ht | ht
    · rw [if_pos (lt_of_lt_of_le ht (le_max_right cap t))]
    · rw [max_eq_left ht, if_neg (lt_irrefl cap)]

lemma wc_foldl_some_started (cap : ℚ) :
    ∀ (L : List ℚ) (A : ℚ),
      L.foldl (fun a tw => wcStep (some cap) tw a) (min cap A, decide (cap < A))
        = (min cap (L.foldl max A), decide (cap < L.foldl max A)) := by
  intro L
  induction L with
  | nil => intro A; rfl
  | cons t L ih =>
    intro A
    rw [List.foldl_cons, List.foldl_cons, wcStep_some_started, ih]

lemma wc_foldl_some (cap w0 : ℚ) :
    ∀ (L : List ℚ), L ≠ [] →
      L.foldl (fun a tw => wcStep (some cap) tw a) (w0, false)
        = (min cap (L.foldl max w0), decide (cap < L.foldl max w0)) := by
  intro L hL
  cases L with
  | nil => exact absurd rfl hL
  | cons t L =>
    rw [List.foldl_cons, List.foldl_cons, wcStep_some_start]
    exact wc_foldl_some_started cap L (max w0 t)

lemma cell_height_le_rowMaxH (cfg : CalcConfig) (o : MeasureOracle) (dh : ℚ)
    (r c st : Nat) (hc : c < cfg.num_cols) (hst : st < cfg.num_styles c) :
    o.cell_h r c st + cfg.detail_vert_padding_fraction ≤ rowMaxH cfg o dh r := by
  rw [rowMaxH_flat]
  apply foldl_max_mem_le
  rw [rowCellHeights]
  exact List.mem_flatMap.2 ⟨c, List.mem_range.2 hc,
    List.mem_map.2 ⟨st, List.mem_range.2 hst, rfl⟩⟩

lemma header_le_colMaxWidth (cfg : CalcConfig) (o : MeasureOracle) (c : Nat) :
    o.header_w c ≤ colMaxWidth cfg o c := by
  rw [colMaxWidth_flat]
  exact foldl_max_init_le _ _

lemma cell_le_colMaxWidth (cfg : CalcConfig) (o : MeasureOracle) (r c st : Nat)
    (hr : r < cfg.num_rows) (hst : st < cfg.num_styles c) :
    o.cell_w r c st ≤ colMaxWidth cfg o c := by
  rw [colMaxWidth_flat]
  apply foldl_max_mem_le
  rw [colCellWidths]
  exact List.mem_flatMap.2 ⟨r, List.mem_range.2 hr,
    List.mem_map.2 ⟨st, List.mem_range.2 hst, rfl⟩⟩

lemma colCellWidths_ne_nil (cfg : CalcConfig) (o : MeasureOracle) (c : Nat)
    (hrows : 0 < cfg.num_rows) (hst : 0 < cfg.num_styles c) :
    colCellWidths cfg o c ≠ [] := by
  intro hnil
  have hmem : o.cell_w 0 c 0 ∈ colCellWidths cfg o c := by
    rw [colCellWidths]
    exact List.mem_flatMap.2 ⟨0, List.mem_range.2 hrows,
      List.mem_map.2 ⟨0, List.mem_range.2 hst, rfl⟩⟩
  rw [hnil] at hmem
  cases hmem

/-- Claim C5 (amended): for a table whose columns have no fixed width,
no consistency flags, no rotation and no max_width_chars, and for
every text-measurement oracle, the sizing `_calc_metrics` derives
accommodates every cell: each column's final width is the maximum of
its measured header width and all its measured cell widths - clamped
to `max_col_width`, with the clip flag set, exactly when that maximum
exceeds the cap (so in particular whenever a cell measurement exceeds
it) - and, provided the dataframe's index labels are pairwise
distinct, each row's effective height (default detail row height or
the exception recorded under the row's index label) is at least the
measured height of every cell in the row.  (With duplicate labels a
later row overwrites an earlier row's larger exception and the height
bound fails: `calc_metrics_dup_label_cex`.) -/
theorem calc_metrics_sizing (cfg : CalcConfig) (o : MeasureOracle)
    (hrows : 0 < cfg.num_rows) :
    (∀ c, c < cfg.num_cols → 0 < cfg.num_styles c →
      (match cfg.max_col_width with
       | none => (calc_metrics cfg o).widths c = colMaxWidth cfg o c ∧
           (calc_metrics cfg o).clips c = false
       | some cap => (calc_metrics cfg o).widths c = min cap (colMaxWidth cfg o c) ∧
           ((calc_metrics cfg o).clips c = true ↔ cap < colMaxWidth cfg o c))) ∧
    (∀ c r st, c < cfg.num_cols → r < cfg.num_rows → st < cfg.num_styles c →
      o.header_w c ≤ colMaxWidth cfg o c ∧ o.cell_w r c st ≤ colMaxWidth cfg o c) ∧
    ((∀ r r', r < cfg.num_rows → r' < cfg.num_rows → cfg.idx r = cfg.idx r' → r = r') →
      ∀ r c st, r < cfg.num_rows → c < cfg.num_cols → st < cfg.num_styles c →
        o.cell_h r c st + cfg.detail_vert_padding_fraction ≤ effRowHeight cfg o r) := by
  refine ⟨?_, ?_, ?_⟩
  · intro c hc hst
    have hpair := calc_metrics_wc_flat cfg o c hc
    cases hcap : cfg.max_col_width with
    | none =>
      rw [hcap, wc_foldl_none] at hpair
      simp only [Prod.mk.injEq] at hpair
      rw [colMaxWidth_flat]
      exact hpair
    | some cap =>
      rw [hcap, wc_foldl_some cap (o.header_w c) (colCellWidths cfg o c)
        (colCellWidths_ne_nil cfg o c hrows hst)] at hpair
      simp only [Prod.mk.injEq] at hpair
      obtain ⟨h1, h2⟩ := hpair
      constructor
      · rw [h1, colMaxWidth_flat]
      · rw [h2, colMaxWidth_flat]
        simp
  · intro c r st hc hr hst
    exact ⟨header_le_colMaxWidth cfg o c, cell_le_colMaxWidth cfg o r c st hr hst⟩
  · intro hinj r c st hr hc hst
    have hbound := cell_height_le_rowMaxH cfg o (detailRowHeight cfg o) r c st hc hst
    rw [effRowHeight, calc_metrics_exceptions cfg o r hr (fun t ht h => hinj t r ht hr h)]
    split
    · rw [Option.getD_some]
      exact hbound
    · rw [Option.getD_none]
      rename_i hnlt
      exact le_trans hbound (not_lt.1 hnlt)

/-- Concrete one-row, one-column, one-style configuration with a width
cap of 5. -/
def cfgW : CalcConfig :=
  { num_cols := 1, num_rows := 1, num_styles := fun _ => 1, max_col_width := some 5,
    detail_vert_padding_fraction := 0, header_vert_padding_fraction := 0,
    idx := fun i => (i : Int) }

/-- Concrete measurement oracle: header width 10, cell width 7, cell
height 3, probe height 1. -/
def oW : MeasureOracle :=
  { default_h := fun _ _ => 1, header_w := fun _ => 10, header_h := fun _ => 2,
    cell_w := fun _ _ _ => 7, cell_h := fun _ _ _ => 3 }

/-- Witness for the amended C5 at the concrete configuration `cfgW` /
oracle `oW` (whose index labels are the ilocs, hence distinct). -/
theorem calc_metrics_sizing_witness :
    (∀ c, c < cfgW.num_cols → 0 < cfgW.num_styles c →
      (match cfgW.max_col_width with
       | none => (calc_metrics cfgW oW).widths c = colMaxWidth cfgW oW c ∧
           (calc_metrics cfgW oW).clips c = false
       | some cap => (calc_metrics cfgW oW).widths c = min cap (colMaxWidth cfgW oW c) ∧
           ((calc_metrics cfgW oW).clips c = true ↔ cap < colMaxWidth cfgW oW c))) ∧
    (∀ c r st, c < cfgW.num_cols → r < cfgW.num_rows → st < cfgW.num_styles c →
      oW.header_w c ≤ colMaxWidth cfgW oW c ∧ oW.cell_w r c st ≤ colMaxWidth cfgW oW c) ∧
    (∀ r c st, r < cfgW.num_rows → c < cfgW.num_cols → st < cfgW.num_styles c →
      oW.cell_h r c st + cfgW.detail_vert_padding_fraction ≤ effRowHeight cfgW oW r) :=
  ⟨(calc_metrics_sizing cfgW oW (by decide)).1,
   (calc_metrics_sizing cfgW oW (by decide)).2.1,
   (calc_metrics_sizing cfgW oW (by decide)).2.2
     (fun r r' _ _ h => Nat.cast_inj.mp h)⟩

/-- Two rows sharing the index label 0 (pandas permits duplicate
index labels); one column, one style, no width cap. -/
def cfgDup : CalcConfig :=
  { num_cols := 1, num_rows := 2, num_styles := fun _ => 1, max_col_width := none,
    detail_vert_padding_fraction := 0, header_vert_padding_fraction := 0,
    idx := fun _ => 0 }

/-- Oracle for the duplicate-label counterexample: probe height 2 (the
default row height), row 0's cell measures height 5, row 1's height 3. -/
def oDup : MeasureOracle :=
  { default_h := fun _ _ => 2, header_w := fun _ => 1, header_h := fun _ => 1,
    cell_w := fun _ _ _ => 1, cell_h := fun r _ _ => if r = 0 then 5 else 3 }

/-- Counterexample to claim C5 as stated: with duplicate index labels
the exception dict entry of row 0 (height 5) is overwritten by row 1
(height 3) - tables.py line 1048 keys `_row_height_exceptions` by the
iterrows index label and guards only against the default height - so
row 0's effective height 3 is below its measured cell height 5. -/
theorem calc_metrics_dup_label_cex :
    effRowHeight cfgDup oDup 0 = 3 ∧
    ¬(oDup.cell_h 0 0 0 + cfgDup.detail_vert_padding_fraction
        ≤ effRowHeight cfgDup oDup 0) := by
  have heff : effRowHeight cfgDup oDup 0 = 3 := by
    norm_num [effRowHeight, calc_metrics, rowStep, colStep, styleStep, detailRowHeight,
      cfgDup, oDup, List.range_succ]
  refine ⟨heff, ?_⟩
  rw [heff]
  norm_num [cfgDup, oDup]

end DsrUtils
